import Mathlib

/-!
Verification of the notification-queue logic of `react-notification-provider`
(`src/index.tsx`).

The library manages an ordered list of `(id, data)` entries.  Two
realizations of the same `Queue` contract exist in the source:

* `createMockNotificationQueue` — a plain in-memory list; `add` uses
  `findIndex` + `splice(matchIndex, 1, entry)` / `push`, `remove` uses
  `filter`, `removeAll` uses `splice(0, list.length)`.
* `useNotificationQueue` — React state; its `add` updater is the same
  `findIndex`/`splice`/`push` algorithm, `remove` is the same `filter`,
  `removeAll` sets the state to `[]`.

We embed both realizations as pure functions on `List (Queued N)`.
JavaScript's fallible `findIndex` (which returns `-1` on no match) is
embedded as an `Option Nat`-returning search for the first index whose
entry has the given id.  `useNotifications` (which throws
`Missing <NotificationQueueProvider>` when the context is `null`) is
embedded as an `Except`-returning function on `Option`.
-/

namespace ReactNotificationProvider

/-- `Queued<Notification>`: one queued item, `{ id: string; data: Notification }`. -/
structure Queued (Notification : Type) where
  id : String
  data : Notification
deriving DecidableEq, Repr

/-- `list.findIndex(n => n.id === id)`: index of the first entry whose `id`
matches, embedded with `Option Nat` in place of JavaScript's `-1` sentinel. -/
def findIndex {N : Type} (id : String) : List (Queued N) → Option Nat
  | [] => none
  | n :: rest => if n.id = id then some 0 else (findIndex id rest).map (· + 1)

/-- `createMockNotificationQueue`'s `add`: find the first entry with this `id`;
if found, `splice(matchIndex, 1, {id, data})` (replace in place); otherwise
`push({id, data})` at the end. -/
def mockAdd {N : Type} (id : String) (notification : N)
    (list : List (Queued N)) : List (Queued N) :=
  match findIndex id list with
  | some matchIndex =>
      list.take matchIndex ++ ⟨id, notification⟩ :: list.drop (matchIndex + 1)
  | none => list ++ [⟨id, notification⟩]

/-- `createMockNotificationQueue`'s `remove`: `list.filter(n => n.id !== id)`. -/
def mockRemove {N : Type} (id : String) (list : List (Queued N)) :
    List (Queued N) :=
  list.filter (fun n => n.id ≠ id)

/-- `createMockNotificationQueue`'s `removeAll`: `list.splice(0, list.length)`
deletes the first `list.length` elements, leaving `list.drop list.length`. -/
def mockRemoveAll {N : Type} (list : List (Queued N)) : List (Queued N) :=
  list.drop list.length

/-- `useNotificationQueue`'s `add` state updater: identical `findIndex` +
`splice`/`push` algorithm on the previous state. -/
def liveAdd {N : Type} (id : String) (notification : N)
    (queue : List (Queued N)) : List (Queued N) :=
  match findIndex id queue with
  | some matchIndex =>
      queue.take matchIndex ++ ⟨id, notification⟩ :: queue.drop (matchIndex + 1)
  | none => queue ++ [⟨id, notification⟩]

/-- `useNotificationQueue`'s `remove`: `setQueue(queue => queue.filter(n => n.id !== id))`. -/
def liveRemove {N : Type} (id : String) (queue : List (Queued N)) :
    List (Queued N) :=
  queue.filter (fun n => n.id ≠ id)

/-- `useNotificationQueue`'s `removeAll`: `setQueue([])`. -/
def liveRemoveAll {N : Type} (_ : List (Queued N)) : List (Queued N) := []

/-- One call of the mutating public surface. -/
inductive Op (N : Type) where
  | add (id : String) (data : N)
  | remove (id : String)
  | removeAll
deriving DecidableEq, Repr

/-- Apply one operation to the mock queue's backing list. -/
def mockStep {N : Type} (s : List (Queued N)) : Op N → List (Queued N)
  | .add i d => mockAdd i d s
  | .remove i => mockRemove i s
  | .removeAll => mockRemoveAll s

/-- Apply one operation to the live queue's React state. -/
def liveStep {N : Type} (s : List (Queued N)) : Op N → List (Queued N)
  | .add i d => liveAdd i d s
  | .remove i => liveRemove i s
  | .removeAll => liveRemoveAll s

/-- Run a call sequence on the mock queue, starting from the empty list. -/
def mockRun {N : Type} (ops : List (Op N)) : List (Queued N) :=
  ops.foldl mockStep []

/-- Run a call sequence on the live queue, starting from the initial state `[]`. -/
def liveRun {N : Type} (ops : List (Op N)) : List (Queued N) :=
  ops.foldl liveStep []

/-- At most one entry per `id`: the ids of the entries are pairwise distinct. -/
def uniqueIds {N : Type} (list : List (Queued N)) : Prop :=
  (list.map Queued.id).Nodup

instance {N : Type} (list : List (Queued N)) : Decidable (uniqueIds list) := by
  unfold uniqueIds; infer_instance

/-- `useNotifications`: read the context; throw
`Missing <NotificationQueueProvider>` when no provider supplied a queue,
otherwise return the queue. -/
def useNotifications {Q : Type} (queue : Option Q) : Except String Q :=
  match queue with
  | none => Except.error "Missing <NotificationQueueProvider>"
  | some q => Except.ok q

/-! ### Helper lemmas about `findIndex` -/

theorem findIndex_eq_none_iff {N : Type} (i : String) (l : List (Queued N)) :
    findIndex i l = none ↔ ∀ n ∈ l, n.id ≠ i := by
  induction l with
  | nil => simp [findIndex]
  | cons x xs ih =>
    by_cases hx : x.id = i
    · simp [findIndex, hx]
    · simp [findIndex, hx, ih]

theorem findIndex_eq_some {N : Type} {i : String} {l : List (Queued N)} {k : Nat}
    (h : findIndex i l = some k) : ∃ e, l[k]? = some e ∧ e.id = i := by
  induction l generalizing k with
  | nil => simp [findIndex] at h
  | cons x xs ih =>
    by_cases hx : x.id = i
    · simp [findIndex, hx] at h
      exact ⟨x, by simp [← h], hx⟩
    · simp [findIndex, hx] at h
      obtain ⟨k', hk', rfl⟩ := h
      obtain ⟨e, he, hei⟩ := ih hk'
      exact ⟨e, by simpa using he, hei⟩

theorem findIndex_of_uniqueIds {N : Type} {i : String} {l : List (Queued N)}
    {k : Nat} {e : Queued N} (hn : uniqueIds l) (hk : l[k]? = some e)
    (he : e.id = i) : findIndex i l = some k := by
  induction l generalizing k with
  | nil => simp at hk
  | cons x xs ih =>
    have h2 : (∀ n ∈ xs, ¬n.id = x.id) ∧ (List.map Queued.id xs).Nodup := by
      simpa [uniqueIds, List.nodup_cons] using hn
    have hn' : uniqueIds xs := h2.2
    match k with
    | 0 =>
      have : x = e := by simpa using hk
      subst this
      simp [findIndex, he]
    | k + 1 =>
      have hk' : xs[k]? = some e := by simpa using hk
      have hmem : e ∈ xs := List.getElem?_mem hk'
      have hx : x.id ≠ i := by
        intro hxi
        exact h2.1 e hmem (by rw [he, hxi])
      simp [findIndex, hx, ih hn' hk']

/-! ### Helper lemmas about splicing -/

/-- Replacing position `k` by the element already there rebuilds the list. -/
theorem take_cons_drop_of_getElem {α : Type _} {l : List α} {k : Nat} {a : α}
    (h : l[k]? = some a) : l.take k ++ a :: l.drop (k + 1) = l := by
  induction l generalizing k with
  | nil => simp at h
  | cons x xs ih =>
    match k with
    | 0 =>
      have : x = a := by simpa using h
      subst this; simp
    | k + 1 =>
      have h' : xs[k]? = some a := by simpa using h
      simpa using ih h'

/-- Splicing at an occupied position is `List.set`. -/
theorem set_eq_take_cons_drop {α : Type _} {l : List α} {k : Nat} {a b : α}
    (h : l[k]? = some b) : l.set k a = l.take k ++ a :: l.drop (k + 1) := by
  induction l generalizing k with
  | nil => simp at h
  | cons x xs ih =>
    match k with
    | 0 => simp
    | k + 1 =>
      have h' : xs[k]? = some b := by simpa using h
      simpa using ih h'

/-- Setting a position to the value it already holds is the identity. -/
theorem set_of_getElem {α : Type _} {l : List α} {k : Nat} {a : α}
    (h : l[k]? = some a) : l.set k a = l := by
  rw [set_eq_take_cons_drop h, take_cons_drop_of_getElem h]

/-! ### Behavior of `add` -/

/-- When no entry has the id, `add` appends at the end (`push`). -/
theorem mockAdd_of_not_mem {N : Type} {i : String} {d : N} {l : List (Queued N)}
    (h : ∀ n ∈ l, n.id ≠ i) : mockAdd i d l = l ++ [⟨i, d⟩] := by
  unfold mockAdd
  rw [(findIndex_eq_none_iff i l).mpr h]

/-- When the first (and under `uniqueIds`, only) entry with the id sits at
position `k`, `add` replaces exactly that position. -/
theorem mockAdd_replace {N : Type} {i : String} {d : N} {l : List (Queued N)}
    {k : Nat} {e : Queued N} (hn : uniqueIds l) (hk : l[k]? = some e)
    (he : e.id = i) : mockAdd i d l = l.set k ⟨i, d⟩ := by
  unfold mockAdd
  rw [findIndex_of_uniqueIds hn hk he, set_eq_take_cons_drop hk]

/-- Replacing an existing id leaves the sequence of ids unchanged. -/
theorem ids_mockAdd_replace {N : Type} {i : String} {d : N}
    {l : List (Queued N)} {k : Nat} (h : findIndex i l = some k) :
    (mockAdd i d l).map Queued.id = l.map Queued.id := by
  obtain ⟨e, hk, he⟩ := findIndex_eq_some h
  have hmapk : (l.map Queued.id)[k]? = some i := by
    rw [List.getElem?_map, hk, Option.map_some', he]
  unfold mockAdd
  rw [h]
  calc (l.take k ++ ⟨i, d⟩ :: l.drop (k + 1)).map Queued.id
      = (l.map Queued.id).take k ++ i :: (l.map Queued.id).drop (k + 1) := by
        simp
    _ = l.map Queued.id := take_cons_drop_of_getElem hmapk

/-- `add` preserves the at-most-one-entry-per-id invariant. -/
theorem uniqueIds_mockAdd {N : Type} {i : String} {d : N} {l : List (Queued N)}
    (hn : uniqueIds l) : uniqueIds (mockAdd i d l) := by
  cases hfi : findIndex i l with
  | none =>
    have hne : ∀ n ∈ l, n.id ≠ i := (findIndex_eq_none_iff i l).mp hfi
    have : mockAdd i d l = l ++ [⟨i, d⟩] := mockAdd_of_not_mem hne
    rw [uniqueIds, this]
    simp only [List.map_append, List.map_cons, List.map_nil]
    rw [List.nodup_append]
    refine ⟨hn, List.nodup_singleton i, ?_⟩
    intro a ha hb
    simp only [List.mem_singleton] at hb
    subst hb
    obtain ⟨n, hmem, hni⟩ := List.mem_map.mp ha
    exact hne n hmem hni
  | some k =>
    rw [uniqueIds, ids_mockAdd_replace hfi]
    exact hn

/-! ### Behavior of `remove` -/

/-- `remove` of an absent id is the identity. -/
theorem mockRemove_of_not_mem {N : Type} {i : String} {l : List (Queued N)}
    (h : ∀ n ∈ l, n.id ≠ i) : mockRemove i l = l := by
  unfold mockRemove
  rw [List.filter_eq_self]
  intro n hn
  simpa using h n hn

/-- Under `uniqueIds`, `remove` of the id at position `k` deletes exactly
that entry. -/
theorem mockRemove_at {N : Type} {i : String} {l : List (Queued N)} {k : Nat}
    {e : Queued N} (hn : uniqueIds l) (hk : l[k]? = some e) (he : e.id = i) :
    mockRemove i l = l.take k ++ l.drop (k + 1) := by
  induction l generalizing k with
  | nil => simp at hk
  | cons x xs ih =>
    have h2 : (∀ n ∈ xs, ¬n.id = x.id) ∧ (List.map Queued.id xs).Nodup := by
      simpa [uniqueIds, List.nodup_cons] using hn
    match k with
    | 0 =>
      have hx : x = e := by simpa using hk
      subst hx
      have hrest : ∀ n ∈ xs, n.id ≠ i := fun n hmem =>
        fun hni => h2.1 n hmem (by rw [hni, he])
      simp only [List.take_zero, List.drop_succ_cons, List.drop_zero,
        List.nil_append]
      have hdrop : mockRemove i (x :: xs) = mockRemove i xs := by
        rw [mockRemove, mockRemove, List.filter_cons, if_neg (by simp [he])]
      rw [hdrop]
      exact mockRemove_of_not_mem hrest
    | k + 1 =>
      have hk' : xs[k]? = some e := by simpa using hk
      have hmem : e ∈ xs := List.getElem?_mem hk'
      have hx : x.id ≠ i := fun hxi => h2.1 e hmem (by rw [he, hxi])
      rw [mockRemove, List.filter_cons]
      rw [if_pos (by simpa using hx)]
      have := ih h2.2 hk'
      rw [mockRemove] at this
      simp only [List.take_succ_cons, List.drop_succ_cons, List.cons_append]
      rw [this]

/-- `remove` preserves the at-most-one-entry-per-id invariant. -/
theorem uniqueIds_mockRemove {N : Type} {i : String} {l : List (Queued N)}
    (hn : uniqueIds l) : uniqueIds (mockRemove i l) := by
  have hsub : List.Sublist ((mockRemove i l).map Queued.id)
      (l.map Queued.id) := List.Sublist.map Queued.id (List.filter_sublist l)
  exact List.Nodup.sublist hsub hn

/-! ### Mock and live steps agree -/

theorem add_eq {N : Type} (i : String) (d : N) (l : List (Queued N)) :
    mockAdd i d l = liveAdd i d l := rfl

theorem remove_eq {N : Type} (i : String) (l : List (Queued N)) :
    mockRemove i l = liveRemove i l := rfl

theorem removeAll_eq {N : Type} (l : List (Queued N)) :
    mockRemoveAll l = liveRemoveAll l := by
  simp [mockRemoveAll, liveRemoveAll]

theorem step_eq {N : Type} (s : List (Queued N)) (op : Op N) :
    mockStep s op = liveStep s op := by
  cases op with
  | add i d => exact add_eq i d s
  | remove i => exact remove_eq i s
  | removeAll => exact removeAll_eq s

theorem foldl_step_eq {N : Type} (ops : List (Op N)) (s : List (Queued N)) :
    ops.foldl mockStep s = ops.foldl liveStep s := by
  induction ops generalizing s with
  | nil => rfl
  | cons op rest ih =>
    simp only [List.foldl_cons]
    rw [step_eq, ih]

theorem uniqueIds_mockStep {N : Type} {s : List (Queued N)} (op : Op N)
    (hs : uniqueIds s) : uniqueIds (mockStep s op) := by
  cases op with
  | add i d => exact uniqueIds_mockAdd hs
  | remove i => exact uniqueIds_mockRemove hs
  | removeAll => simp [mockStep, mockRemoveAll, uniqueIds]

theorem uniqueIds_foldl {N : Type} (ops : List (Op N)) (s : List (Queued N))
    (hs : uniqueIds s) : uniqueIds (ops.foldl mockStep s) := by
  induction ops generalizing s with
  | nil => exact hs
  | cons op rest ih =>
    simp only [List.foldl_cons]
    exact ih _ (uniqueIds_mockStep op hs)

/-- The fold of `add` calls used to state the insertion-order property. -/
def addAll {N : Type} (calls : List (String × N)) (init : List (Queued N)) :
    List (Queued N) :=
  calls.foldl (fun l c => mockAdd c.1 c.2 l) init

theorem addAll_append {N : Type} (calls : List (String × N))
    (acc : List (Queued N)) (hd : (calls.map Prod.fst).Nodup)
    (hdisj : ∀ c ∈ calls, ∀ n ∈ acc, n.id ≠ c.1) :
    addAll calls acc = acc ++ calls.map (fun c => ⟨c.1, c.2⟩) := by
  induction calls generalizing acc with
  | nil => simp [addAll]
  | cons c rest ih =>
    obtain ⟨i, d⟩ := c
    have hstep : mockAdd i d acc = acc ++ [⟨i, d⟩] :=
      mockAdd_of_not_mem (fun n hn => hdisj (i, d) (by simp) n hn)
    have hd' : (rest.map Prod.fst).Nodup := (List.nodup_cons.mp hd).2
    have hi : i ∉ rest.map Prod.fst := (List.nodup_cons.mp hd).1
    have hdisj' : ∀ c ∈ rest, ∀ n ∈ acc ++ [(⟨i, d⟩ : Queued N)], n.id ≠ c.1 := by
      intro c hc n hn
      rcases List.mem_append.mp hn with hacc | hone
      · exact hdisj c (List.mem_cons_of_mem _ hc) n hacc
      · have : n = ⟨i, d⟩ := by simpa using hone
        subst this
        intro hni
        have hic : i = c.1 := hni
        exact hi (by
          rw [hic]
          exact List.mem_map_of_mem Prod.fst hc)
    have : addAll ((i, d) :: rest) acc = addAll rest (acc ++ [⟨i, d⟩]) := by
      simp [addAll, List.foldl_cons, hstep]
    rw [this, ih _ hd' hdisj']
    simp

/-! ### Claims -/

/-- **C1.** Every state reachable from the empty queue by `add`, `remove`,
`removeAll` calls has at most one entry per id, in both realizations, and
every single operation preserves that invariant. -/
theorem claim_C1_unique_ids (N : Type) (ops : List (Op N)) (op : Op N)
    (s : List (Queued N)) (hs : uniqueIds s) :
    uniqueIds (mockRun ops) ∧ uniqueIds (liveRun ops) ∧
    uniqueIds (mockStep s op) ∧ uniqueIds (liveStep s op) := by
  have hmock : uniqueIds (mockRun ops) := uniqueIds_foldl ops [] (by simp [uniqueIds])
  have hlive : uniqueIds (liveRun ops) := by
    have : liveRun ops = mockRun ops := (foldl_step_eq ops []).symm
    rw [this]
    exact hmock
  refine ⟨hmock, hlive, uniqueIds_mockStep op hs, ?_⟩
  rw [← step_eq]
  exact uniqueIds_mockStep op hs

theorem claim_C1_unique_ids_witness :
    uniqueIds (mockRun [Op.add "a" (1 : Nat), Op.add "a" 2, Op.add "b" 3]) ∧
    uniqueIds (liveRun [Op.add "a" (1 : Nat), Op.add "a" 2, Op.add "b" 3]) ∧
    uniqueIds (mockStep [(⟨"b", 0⟩ : Queued Nat)] (Op.add "b" 5)) ∧
    uniqueIds (liveStep [(⟨"b", 0⟩ : Queued Nat)] (Op.add "b" 5)) :=
  claim_C1_unique_ids Nat [Op.add "a" 1, Op.add "a" 2, Op.add "b" 3]
    (Op.add "b" 5) [⟨"b", 0⟩] (by decide)

/-- **C2.** `add(i, d)` on a queue holding id `i` at position `k` replaces
exactly that entry in place (`List.set k`): position `k` now holds
`{id: i, data: d}`, every other position and the length are unchanged; and
two consecutive `add`s of the same id leave a single entry at the original
position holding the latest payload. -/
theorem claim_C2_upsert_in_place (N : Type) (i : String) (d d₁ d₂ : N)
    (l : List (Queued N)) (k : Nat) (e : Queued N)
    (hn : uniqueIds l) (hk : l[k]? = some e) (he : e.id = i) :
    mockAdd i d l = l.set k ⟨i, d⟩ ∧ liveAdd i d l = l.set k ⟨i, d⟩ ∧
    (mockAdd i d l).length = l.length ∧
    mockAdd i d₂ (mockAdd i d₁ l) = l.set k ⟨i, d₂⟩ ∧
    liveAdd i d₂ (liveAdd i d₁ l) = l.set k ⟨i, d₂⟩ := by
  have h1 : mockAdd i d l = l.set k ⟨i, d⟩ := mockAdd_replace hn hk he
  have hklt : k < l.length := (List.getElem?_eq_some_iff.mp hk).1
  have h1' : mockAdd i d₁ l = l.set k ⟨i, d₁⟩ := mockAdd_replace hn hk he
  have hn₁ : uniqueIds (l.set k ⟨i, d₁⟩) := by
    have hmapk : (l.map Queued.id)[k]? = some i := by
      rw [List.getElem?_map, hk, Option.map_some', he]
    rw [uniqueIds, List.map_set]
    show ((l.map Queued.id).set k i).Nodup
    rw [set_of_getElem hmapk]
    exact hn
  have hk₁ : (l.set k ⟨i, d₁⟩)[k]? = some ⟨i, d₁⟩ := by
    rw [List.getElem?_set_self]
    simpa using hklt
  have h2 : mockAdd i d₂ (l.set k ⟨i, d₁⟩) = l.set k ⟨i, d₂⟩ := by
    rw [mockAdd_replace hn₁ hk₁ rfl, List.set_set]
  refine ⟨h1, by rw [← add_eq]; exact h1, by rw [h1]; simp, ?_, ?_⟩
  · rw [h1', h2]
  · rw [← add_eq, ← add_eq, h1', h2]

theorem claim_C2_upsert_in_place_witness :
    mockAdd "b" (7 : Nat) [⟨"a", 1⟩, ⟨"b", 2⟩, ⟨"c", 3⟩]
      = ([⟨"a", 1⟩, ⟨"b", 2⟩, ⟨"c", 3⟩] : List (Queued Nat)).set 1 ⟨"b", 7⟩ ∧
    liveAdd "b" (7 : Nat) [⟨"a", 1⟩, ⟨"b", 2⟩, ⟨"c", 3⟩]
      = ([⟨"a", 1⟩, ⟨"b", 2⟩, ⟨"c", 3⟩] : List (Queued Nat)).set 1 ⟨"b", 7⟩ ∧
    (mockAdd "b" (7 : Nat) [⟨"a", 1⟩, ⟨"b", 2⟩, ⟨"c", 3⟩]).length
      = ([⟨"a", 1⟩, ⟨"b", 2⟩, ⟨"c", 3⟩] : List (Queued Nat)).length ∧
    mockAdd "b" (9 : Nat) (mockAdd "b" 8 [⟨"a", 1⟩, ⟨"b", 2⟩, ⟨"c", 3⟩])
      = ([⟨"a", 1⟩, ⟨"b", 2⟩, ⟨"c", 3⟩] : List (Queued Nat)).set 1 ⟨"b", 9⟩ ∧
    liveAdd "b" (9 : Nat) (liveAdd "b" 8 [⟨"a", 1⟩, ⟨"b", 2⟩, ⟨"c", 3⟩])
      = ([⟨"a", 1⟩, ⟨"b", 2⟩, ⟨"c", 3⟩] : List (Queued Nat)).set 1 ⟨"b", 9⟩ :=
  claim_C2_upsert_in_place Nat "b" 7 8 9 [⟨"a", 1⟩, ⟨"b", 2⟩, ⟨"c", 3⟩] 1
    ⟨"b", 2⟩ (by decide) (by decide) rfl

/-- **C3.** Insertion order: a sequence of `add` calls with pairwise distinct
ids applied to the empty queue produces exactly the entries in call order;
and an upsert of an id already present at position `k` leaves the entry at
position `k` (in both realizations). -/
theorem claim_C3_insertion_order (N : Type) (calls : List (String × N))
    (i : String) (d : N) (l : List (Queued N)) (k : Nat) (e : Queued N)
    (hcalls : (calls.map Prod.fst).Nodup) (hn : uniqueIds l)
    (hk : l[k]? = some e) (he : e.id = i) :
    addAll calls [] = calls.map (fun c => ⟨c.1, c.2⟩) ∧
    (mockAdd i d l)[k]? = some ⟨i, d⟩ ∧
    (liveAdd i d l)[k]? = some ⟨i, d⟩ := by
  have horder : addAll calls [] = calls.map (fun c => ⟨c.1, c.2⟩) := by
    rw [addAll_append calls [] hcalls (by simp)]
    simp
  have hklt : k < l.length := (List.getElem?_eq_some_iff.mp hk).1
  have hpos : (mockAdd i d l)[k]? = some ⟨i, d⟩ := by
    rw [mockAdd_replace hn hk he, List.getElem?_set_self]
    simpa using hklt
  exact ⟨horder, hpos, by rw [← add_eq]; exact hpos⟩

theorem claim_C3_insertion_order_witness :
    addAll [("a", (1 : Nat)), ("b", 2), ("c", 3)] []
      = [⟨"a", 1⟩, ⟨"b", 2⟩, ⟨"c", 3⟩] ∧
    (mockAdd "b" (9 : Nat) [⟨"a", 1⟩, ⟨"b", 2⟩, ⟨"c", 3⟩])[1]?
      = some ⟨"b", 9⟩ ∧
    (liveAdd "b" (9 : Nat) [⟨"a", 1⟩, ⟨"b", 2⟩, ⟨"c", 3⟩])[1]?
      = some ⟨"b", 9⟩ :=
  claim_C3_insertion_order Nat [("a", 1), ("b", 2), ("c", 3)] "b" 9
    [⟨"a", 1⟩, ⟨"b", 2⟩, ⟨"c", 3⟩] 1 ⟨"b", 2⟩ (by decide) (by decide)
    (by decide) rfl

/-- **C4.** Observational equivalence of the mock and the live realization:
any call sequence from the empty queue yields the same `list` in both. -/
theorem claim_C4_mock_live_equiv (N : Type) (ops : List (Op N)) :
    mockRun ops = liveRun ops :=
  foldl_step_eq ops []

/-- **C5.** `remove(id)` on a queue containing `id` at position `k` deletes
exactly that entry and keeps the rest in their relative order. -/
theorem claim_C5_remove_present (N : Type) (i : String) (l : List (Queued N))
    (k : Nat) (e : Queued N) (hn : uniqueIds l) (hk : l[k]? = some e)
    (he : e.id = i) :
    mockRemove i l = l.take k ++ l.drop (k + 1) ∧
    liveRemove i l = l.take k ++ l.drop (k + 1) := by
  have h := mockRemove_at hn hk he
  exact ⟨h, by rw [← remove_eq]; exact h⟩

theorem claim_C5_remove_present_witness :
    mockRemove "b" [(⟨"a", 1⟩ : Queued Nat), ⟨"b", 2⟩, ⟨"c", 3⟩]
      = [⟨"a", 1⟩, ⟨"c", 3⟩] ∧
    liveRemove "b" [(⟨"a", 1⟩ : Queued Nat), ⟨"b", 2⟩, ⟨"c", 3⟩]
      = [⟨"a", 1⟩, ⟨"c", 3⟩] :=
  claim_C5_remove_present Nat "b" [⟨"a", 1⟩, ⟨"b", 2⟩, ⟨"c", 3⟩] 1 ⟨"b", 2⟩
    (by decide) (by decide) rfl

/-- **C6.** `remove(id)` on a queue without `id` is a no-op in both
realizations. -/
theorem claim_C6_remove_absent (N : Type) (i : String) (l : List (Queued N))
    (h : ∀ n ∈ l, n.id ≠ i) :
    mockRemove i l = l ∧ liveRemove i l = l := by
  have hm := mockRemove_of_not_mem h
  exact ⟨hm, by rw [← remove_eq]; exact hm⟩

theorem claim_C6_remove_absent_witness :
    mockRemove "z" [(⟨"a", 1⟩ : Queued Nat), ⟨"b", 2⟩]
      = [⟨"a", 1⟩, ⟨"b", 2⟩] ∧
    liveRemove "z" [(⟨"a", 1⟩ : Queued Nat), ⟨"b", 2⟩]
      = [⟨"a", 1⟩, ⟨"b", 2⟩] :=
  claim_C6_remove_absent Nat "z" [⟨"a", 1⟩, ⟨"b", 2⟩] (by decide)

/-- **C7.** `removeAll()` empties the queue in both realizations, whatever
the prior contents. -/
theorem claim_C7_remove_all (N : Type) (l : List (Queued N)) :
    (mockRemoveAll l).length = 0 ∧ (liveRemoveAll l).length = 0 := by
  simp [mockRemoveAll, liveRemoveAll]

/-- **C8.** `add(id, d)` on the empty queue yields the singleton
`[{id, data: d}]` in both realizations. -/
theorem claim_C8_add_empty (N : Type) (i : String) (d : N) :
    mockAdd i d [] = [⟨i, d⟩] ∧ liveAdd i d [] = [⟨i, d⟩] :=
  ⟨rfl, rfl⟩

/-- **C9.** Reading the context without an enclosing provider raises the
missing-setup error; with a provider, `useNotifications` returns the queue
without failing.  (The mutation operations `add`/`remove`/`removeAll` are
embedded as total functions on lists: they have no failure outcome.) -/
theorem claim_C9_missing_provider (Q : Type) (ctx : Option Q) (q : Q)
    (h : ctx = some q) :
    useNotifications (none : Option Q)
      = Except.error "Missing <NotificationQueueProvider>" ∧
    useNotifications ctx = Except.ok q := by
  subst h
  exact ⟨rfl, rfl⟩

theorem claim_C9_missing_provider_witness :
    useNotifications (none : Option Nat)
      = Except.error "Missing <NotificationQueueProvider>" ∧
    useNotifications (some 3) = Except.ok 3 :=
  claim_C9_missing_provider Nat (some 3) 3 rfl

/-- **C10.** On a queue without id `i`, `add(i, d)` then `remove(i)` restores
the original list exactly, in both realizations. -/
theorem claim_C10_add_remove_roundtrip (N : Type) (i : String) (d : N)
    (l : List (Queued N)) (h : ∀ n ∈ l, n.id ≠ i) :
    mockRemove i (mockAdd i d l) = l ∧ liveRemove i (liveAdd i d l) = l := by
  have hm : mockRemove i (mockAdd i d l) = l := by
    rw [mockAdd_of_not_mem h, mockRemove, List.filter_append]
    have h1 : l.filter (fun n => n.id ≠ i) = l := mockRemove_of_not_mem h
    have h2 : List.filter (fun n => decide (n.id ≠ i)) [(⟨i, d⟩ : Queued N)]
        = [] := by simp
    rw [h2]
    simpa using h1
  exact ⟨hm, by rw [← remove_eq, ← add_eq]; exact hm⟩

theorem claim_C10_add_remove_roundtrip_witness :
    mockRemove "c" (mockAdd "c" (9 : Nat) [⟨"a", 1⟩, ⟨"b", 2⟩])
      = [⟨"a", 1⟩, ⟨"b", 2⟩] ∧
    liveRemove "c" (liveAdd "c" (9 : Nat) [⟨"a", 1⟩, ⟨"b", 2⟩])
      = [⟨"a", 1⟩, ⟨"b", 2⟩] :=
  claim_C10_add_remove_roundtrip Nat "c" 9 [⟨"a", 1⟩, ⟨"b", 2⟩] (by decide)

end ReactNotificationProvider
